import Mathlib

/-!
Verification development for the bigcommerce-catalyst CLI deploy pipeline
and the Algolia-backed search server action.

The deploy command implementation itself is not part of the repository
snapshot: only its test suite (`packages/cli/tests/commands/deploy.spec.ts`)
is present. Every definition in the deploy section is therefore modelled
from the specification (spec.md §3–§4.7), with the concrete message strings
taken from the repository's own test expectations. The search action and
its collaborators are embedded directly from the source files.
-/

namespace Catalyst

/-- Modelled from the spec: the missing `deploy.ts` defines
`DeploymentEvent = {status, deploymentId, step: {name, progress}, error?: {code}}`
(spec.md §3). `errorCode` is `none` when the wire event carries no `error`
object, `some c` when it carries `error.code = c`. -/
structure DeploymentEvent where
  deployment_status : String
  deployment_uuid : String
  step : String
  progress : Nat
  errorCode : Option Int
deriving DecidableEq, Repr

/-- Modelled from the spec: one buffered unit of the event stream after the
framing layer has isolated it (spec.md §4.5 protocol contract). A unit either
decodes to a well-formed `DeploymentEvent` (`ok`) or fails JSON decoding
(`bad`, carrying the raw undecodable text). -/
inductive StreamUnit where
  | ok (ev : DeploymentEvent)
  | bad (raw : String)
deriving DecidableEq, Repr

/-- Modelled from the spec: the terminal disposition of the streaming call
(spec.md §4.5): sole success exit on a completion-status event, typed failure
carrying the error code, or anomalous connection close with no terminal
event seen. -/
inductive StreamOutcome where
  | succeeded
  | failed (code : Int) (message : String)
  | closed
deriving DecidableEq, Repr

/-- Modelled from the spec: the observable trace of one streaming call —
emitted progress messages in order, logged parse-failure warnings in order,
and the terminal outcome. -/
structure RunResult where
  msgs : List String
  warnings : List String
  outcome : StreamOutcome
deriving DecidableEq, Repr

/-- Modelled from the spec: the failure message for a server-reported
deployment error code, as asserted by the repository's test
`handles deployment errors`. -/
def deployFailureMessage (code : Int) : String :=
  "Deployment failed with error code: " ++ toString code

/-- Modelled from the spec: the parse-failure warning logged when a buffered
unit fails to decode, naming the failure and its cause (spec.md §4.5 rule 3;
message text from the repository's test expectations). -/
def parseWarning (raw : String) : String :=
  "Failed to parse event, dropping from stream. Cause: " ++ raw

/-- Modelled from the spec: the progress state machine's step table
(spec.md §4.5): states ordered fetching (rank 0) → processing (rank 1) →
finalizing (rank 2), each forward transition emitting its message. Steps
outside the table (e.g. `unzipping`) emit nothing. -/
def stepInfo (s : String) : Option (Nat × String) :=
  if s = "processing" then some (1, "Processing...")
  else if s = "finalizing" then some (2, "Finalizing...")
  else none

/-- Modelled from the spec: the streamer's read loop (spec.md §4.5), missing
from src. One buffered unit is consumed per iteration, `cur` being the rank
of the progress state already reached. A `bad` unit logs a warning and is
discarded whole; an event with a non-null `error.code` terminates with a
failure and emits nothing further; a completion-status event is the sole
success exit; a step event emits its message only on a forward transition;
end of input with no terminal event is an anomalous close. -/
def processUnits : List StreamUnit → Nat → RunResult
  | [], _ => ⟨[], [], .closed⟩
  | .bad raw :: rest, cur =>
    let r := processUnits rest cur
    ⟨r.msgs, parseWarning raw :: r.warnings, r.outcome⟩
  | .ok ev :: rest, cur =>
    match ev.errorCode with
    | some code => ⟨[], [], .failed code (deployFailureMessage code)⟩
    | none =>
      if ev.deployment_status = "completed" then
        ⟨["Deployment completed successfully."], [], .succeeded⟩
      else
        match stepInfo ev.step with
        | some (rank, msg) =>
          if cur < rank then
            let r := processUnits rest rank
            ⟨msg :: r.msgs, r.warnings, r.outcome⟩
          else
            processUnits rest cur
        | none => processUnits rest cur

/-- Modelled from the spec: `getDeploymentStatus` (missing from src) over an
already-framed unit stream. It emits the initial "Fetching..." progress
message before any step-bearing event is observed (spec.md §4.5) and then
runs the read loop from the fetching state. -/
def getDeploymentStatus (units : List StreamUnit) : RunResult :=
  let r := processUnits units 0
  ⟨"Fetching..." :: r.msgs, r.warnings, r.outcome⟩

/-- Modelled from the spec: the rank of the progress state the read loop is
in after consuming the given units without hitting a terminal event. -/
def finalRank : List StreamUnit → Nat → Nat
  | [], cur => cur
  | .bad _ :: rest, cur => finalRank rest cur
  | .ok ev :: rest, cur =>
    match ev.errorCode with
    | some _ => cur
    | none =>
      if ev.deployment_status = "completed" then cur
      else
        match stepInfo ev.step with
        | some (rank, _) =>
          if cur < rank then finalRank rest rank else finalRank rest cur
        | none => finalRank rest cur

/-- Modelled from the spec: `SecretEntry = {kind: "secret", key, value}`
(spec.md §3), derived from one `KEY=VALUE` token. -/
structure SecretEntry where
  kind : String
  key : String
  value : String
deriving DecidableEq, Repr

/-- Modelled from the spec: the validation message for a malformed secret
token, as asserted by the repository's test `reads from env options`. -/
def invalidSecretMessage (token : String) : String :=
  "Invalid secret format: " ++ token ++ ". Expected format: KEY=VALUE"

/-- Splits a character list at the first `=`, returning the (possibly empty)
part before it and everything after it; `none` when no `=` occurs. -/
def splitFirstEq : List Char → Option (List Char × List Char)
  | [] => none
  | c :: rest =>
    if c = '=' then some ([], rest)
    else
      match splitFirstEq rest with
      | none => none
      | some (k, v) => some (c :: k, v)

/-- Modelled from the spec: parsing of one secret token (spec.md §4.7,
missing from src): the first `=` is the delimiter, the key before it must be
non-empty, the remainder is the value (which may itself contain `=`); any
other shape is a validation error naming the token. -/
def parseSecret (token : String) : Except String SecretEntry :=
  match splitFirstEq token.data with
  | some ([], _) => .error (invalidSecretMessage token)
  | some (c :: k, v) => .ok ⟨"secret", String.mk (c :: k), String.mk v⟩
  | none => .error (invalidSecretMessage token)

/-- Whether a token parses as a well-formed `KEY=VALUE` secret. -/
def validSecretToken (token : String) : Bool :=
  match parseSecret token with
  | .ok _ => true
  | .error _ => false

/-- Modelled from the spec: `parseEnvironmentVariables` (missing from src)
over an ordered token sequence: the first malformed token fails the whole
batch with its validation error; otherwise every token yields its
`SecretEntry` in order (spec.md §4.7). -/
def parseEnvironmentVariables (tokens : List String) : Except String (List SecretEntry) :=
  match tokens with
  | [] => .ok []
  | t :: rest =>
    match parseSecret t with
    | .error e => .error e
    | .ok entry =>
      match parseEnvironmentVariables rest with
      | .error e => .error e
      | .ok entries => .ok (entry :: entries)

/-- Modelled from the spec: one archive entry — a path plus run-varying
metadata (modification time), standing for the entry bytes that need not be
identical across runs (spec.md §8, BundleBuilder idempotence property). -/
structure ZipEntry where
  path : String
  mtime : Nat
deriving DecidableEq, Repr

/-- Modelled from the spec: `generateBundleZip` (missing from src) walks the
build-output tree and adds every file found, preserving relative paths, all
nested under the fixed root folder `output/` (spec.md §4.1; root name from
the repository's test `zip contains output folder with assets and
worker.js`). `files` are the relative paths found in the build-output
directory; `mtime` is the run-dependent metadata stamped on each entry. -/
def generateBundleZipEntries (files : List String) (mtime : Nat) : List ZipEntry :=
  files.map (fun f => ⟨"output/" ++ f, mtime⟩)

/-- Modelled from the spec: the upload authorization
`{uploadUrl, uploadId}` (spec.md §3), field names as in the repository's
test expectations. -/
structure UploadSignature where
  upload_url : String
  upload_uuid : String
deriving DecidableEq, Repr

/-- Modelled from the spec: the deployment record returned by the
registrar (spec.md §3). -/
structure Deployment where
  deployment_uuid : String
deriving DecidableEq, Repr

/-- Modelled from the spec: the environment one deploy invocation runs
against — the build output on disk and the responses each remote endpoint
would give if called. -/
structure DeployEnv where
  buildFiles : List String
  mtime : Nat
  signatureResp : Except String UploadSignature
  uploadResp : Except String Bool
  deploymentResp : Except String Deployment
  streamUnits : List StreamUnit

/-- Modelled from the spec: the observable trace of one orchestrator run —
informational messages in order, the remote endpoints actually called in
order, the archive written (if bundling ran), and the process exit code. -/
structure DeployRun where
  messages : List String
  networkCalls : List String
  archive : Option (List ZipEntry)
  exitCode : Nat
deriving DecidableEq, Repr

/-- Modelled from the spec: the dry-run notices (spec.md §4.6), message text
from the repository's test `--dry-run skips upload and deployment steps`:
the announcement followed by the four skipped-step notices. -/
def dryRunMessages : List String :=
  ["Dry run enabled — skipping upload and deployment steps.",
   "Next steps (skipped):",
   "- Generate upload signature",
   "- Upload bundle.zip",
   "- Create deployment"]

/-- Modelled from the spec: the deploy orchestrator (missing from src),
sequencing BundleBuilder → [dry-run exit] → UploadAuthorizer →
BundleUploader → DeploymentRegistrar → DeploymentStatusStreamer
(spec.md §4.6). In dry-run mode it stops after bundling, prints the skip
notices and exits 0 with no endpoint called; otherwise each stage's failure
aborts the remaining stages and exits non-zero. -/
def runDeploy (dryRun : Bool) (env : DeployEnv) : DeployRun :=
  let entries := generateBundleZipEntries env.buildFiles env.mtime
  let baseMsgs := ["Generating bundle...", "Bundle created at: bundle.zip"]
  if dryRun then
    ⟨baseMsgs ++ dryRunMessages, [], some entries, 0⟩
  else
    match env.signatureResp with
    | .error e =>
      ⟨baseMsgs ++ ["Generating upload signature...", e], ["upload_signature"], some entries, 1⟩
    | .ok _ =>
      let sigMsgs := baseMsgs ++ ["Generating upload signature...", "Upload signature generated."]
      match env.uploadResp with
      | .error e =>
        ⟨sigMsgs ++ ["Uploading bundle...", e], ["upload_signature", "upload"], some entries, 1⟩
      | .ok _ =>
        let upMsgs := sigMsgs ++ ["Uploading bundle...", "Bundle uploaded successfully."]
        match env.deploymentResp with
        | .error e =>
          ⟨upMsgs ++ [e], ["upload_signature", "upload", "create_deployment"], some entries, 1⟩
        | .ok _ =>
          let calls := ["upload_signature", "upload", "create_deployment", "deployment_events"]
          let r := getDeploymentStatus env.streamUnits
          match r.outcome with
          | .succeeded => ⟨upMsgs ++ r.msgs, calls, some entries, 0⟩
          | .failed _ m => ⟨upMsgs ++ r.msgs ++ [m], calls, some entries, 1⟩
          | .closed => ⟨upMsgs ++ r.msgs, calls, some entries, 1⟩

/-- The outcome of `parseWithZod` on the submitted form data, as observed by
`search` in the source: either a successful parse carrying the term, or a
parse failure (`submission.status !== 'success'`). -/
inductive SubmissionState where
  | success (term : String)
  | failed
deriving DecidableEq, Repr

/-- The `lastResult` value `search` builds: `submission.reply()` with no
arguments, or `submission.reply({formErrors})`. -/
inductive LastResult where
  | reply
  | replyWithErrors (formErrors : List String)
deriving DecidableEq, Repr

/-- An error thrown inside the `try` block of `search`, classified the way
the catch clause classifies it: a `BigCommerceGQLError` carrying structured
messages, a plain `Error` carrying one message, or any other thrown value. -/
inductive ThrownError where
  | gql (messages : List String)
  | err (message : String)
  | other
deriving DecidableEq, Repr

/-- The state object `search` returns, generic over the search-result
element type `ρ` (`SearchResult` in the source). `searchResults = none`
models the TypeScript `null`. -/
structure SearchState (ρ : Type) where
  lastResult : LastResult
  searchResults : Option (List ρ)
  emptyStateTitle : String
  emptyStateSubtitle : String
deriving DecidableEq, Repr

/-- The `formErrors` list the catch clause of `search` reports for each
thrown-error shape: the GQL error's messages, the plain error's message, or
the translated generic error text. -/
def formErrorsFor (tError : String) : ThrownError → List String
  | .gql messages => messages
  | .err message => [message]
  | .other => [tError]

/-- The `search` server action of `src/unnamed/part_000`. `tTitle`/
`tSubtitle`/`tError` model the translator; `indexName` models
`process.env.ALGOLIA_INDEX_NAME` (`strict` throws an `AssertionError`, an
`Error` instance, when it is unset or empty); `runQuery` models awaiting
`algoliaClient.searchSingleIndex` followed by `algoliaResultsTransformer`.
Returns the new state together with the list of query terms actually sent
to the Algolia index. -/
def search {ρ : Type} (tTitle : String → String) (tSubtitle tError : String)
    (indexName : Option String) (runQuery : String → Except ThrownError (List ρ))
    (prev : SearchState ρ) (submission : SubmissionState) :
    SearchState ρ × List String :=
  match submission with
  | .failed =>
    (⟨.reply, prev.searchResults, tTitle "", tSubtitle⟩, [])
  | .success term =>
    let title := tTitle term
    if term.length < 3 then
      (⟨.reply, none, title, tSubtitle⟩, [])
    else
      match indexName with
      | none => (⟨.replyWithErrors ["ERR_ASSERTION"], prev.searchResults, title, tSubtitle⟩, [])
      | some name =>
        if name = "" then
          (⟨.replyWithErrors ["ERR_ASSERTION"], prev.searchResults, title, tSubtitle⟩, [])
        else
          match runQuery term with
          | .ok results => (⟨.reply, some results, title, tSubtitle⟩, [term])
          | .error e =>
            (⟨.replyWithErrors (formErrorsFor tError e), prev.searchResults, title, tSubtitle⟩,
             [term])

/-- Concrete processing step event (progress 75) as sent by the repository's
stream tests. -/
def procEvent : DeploymentEvent :=
  ⟨"in_progress", "5b29c3c0-5f68-44fe-99e5-06492babf7be", "processing", 75, none⟩

/-- Concrete finalizing step event (progress 99) as sent by the repository's
stream tests. -/
def finalizingEvent : DeploymentEvent :=
  ⟨"in_progress", "5b29c3c0-5f68-44fe-99e5-06492babf7be", "finalizing", 99, none⟩

/-- Concrete completion-status event closing the happy-path stream. -/
def completedEvent : DeploymentEvent :=
  ⟨"completed", "5b29c3c0-5f68-44fe-99e5-06492babf7be", "finalizing", 100, none⟩

/-- Concrete event carrying `error.code = 30` as sent by the repository's
test `handles deployment errors`. -/
def errorEvent : DeploymentEvent :=
  ⟨"in_progress", "5b29c3c0-5f68-44fe-99e5-06492babf7be", "unzipping", 99, some 30⟩

/-- The undecodable buffered unit sent by the repository's test `warns if
event stream is incomplete or unable to be parsed`: a JSON payload cut off
mid-object. -/
def badUnitRaw : String := "data: \x7b\"deployment_status\":\"in_progress\","

end Catalyst

namespace Catalyst

theorem stepInfo_eq_cases (s : String) (p : Nat × String) (h : stepInfo s = some p) :
    p = (1, "Processing...") ∨ p = (2, "Finalizing...") := by
  unfold stepInfo at h
  split at h
  · exact Or.inl (Option.some.inj h).symm
  · split at h
    · exact Or.inr (Option.some.inj h).symm
    · simp at h

theorem processUnits_bad_cons (raw : String) (rest : List StreamUnit) (cur : Nat) :
    processUnits (.bad raw :: rest) cur =
      ⟨(processUnits rest cur).msgs, parseWarning raw :: (processUnits rest cur).warnings,
       (processUnits rest cur).outcome⟩ := rfl

theorem processUnits_succeeded (units : List StreamUnit) (cur : Nat)
    (h : (processUnits units cur).outcome = .succeeded) :
    ∃ ev, StreamUnit.ok ev ∈ units ∧ ev.errorCode = none ∧
      ev.deployment_status = "completed" := by
  induction units generalizing cur with
  | nil => simp [processUnits] at h
  | cons u rest ih =>
    cases u with
    | bad raw =>
      rw [processUnits_bad_cons] at h
      obtain ⟨ev, hm, h1, h2⟩ := ih cur h
      exact ⟨ev, List.mem_cons_of_mem _ hm, h1, h2⟩
    | ok ev =>
      simp only [processUnits] at h
      cases hec : ev.errorCode with
      | some code => simp [hec] at h
      | none =>
        simp only [hec] at h
        by_cases hc : ev.deployment_status = "completed"
        · exact ⟨ev, List.mem_cons_self _ _, hec, hc⟩
        · rw [if_neg hc] at h
          cases hsi : stepInfo ev.step with
          | none =>
            simp only [hsi] at h
            obtain ⟨ev', hm, h1, h2⟩ := ih cur h
            exact ⟨ev', List.mem_cons_of_mem _ hm, h1, h2⟩
          | some p =>
            obtain ⟨rank, msg⟩ := p
            simp only [hsi] at h
            by_cases hr : cur < rank
            · rw [if_pos hr] at h
              obtain ⟨ev', hm, h1, h2⟩ := ih rank h
              exact ⟨ev', List.mem_cons_of_mem _ hm, h1, h2⟩
            · rw [if_neg hr] at h
              obtain ⟨ev', hm, h1, h2⟩ := ih cur h
              exact ⟨ev', List.mem_cons_of_mem _ hm, h1, h2⟩

/-- C1: on a stream delivering, in order, a processing step event
(progress 75), a buffered unit that does not decode to valid JSON, a
finalizing step event (progress 99) and a success status,
`getDeploymentStatus` emits exactly the progress sequence Fetching /
Processing / Finalizing / completed, logs exactly one parse-failure
warning and resolves successfully; moreover, for every unit stream,
resolving successfully requires a completion-status event in the stream —
the completion-status event is the only success exit. -/
theorem c1_parse_recovery_and_sole_success_exit :
    getDeploymentStatus
        [.ok procEvent, .bad badUnitRaw, .ok finalizingEvent, .ok completedEvent]
      = ⟨["Fetching...", "Processing...", "Finalizing...",
          "Deployment completed successfully."],
         [parseWarning badUnitRaw], .succeeded⟩
    ∧ ∀ units, (getDeploymentStatus units).outcome = .succeeded →
        ∃ ev, StreamUnit.ok ev ∈ units ∧ ev.errorCode = none ∧
          ev.deployment_status = "completed" := by
  refine ⟨rfl, ?_⟩
  intro units h
  exact processUnits_succeeded units 0 h

/-- Witness for C1: the sole-success-exit part instantiated on the concrete
happy-path stream. -/
theorem c1_parse_recovery_and_sole_success_exit_witness :
    ∃ ev, StreamUnit.ok ev ∈
        [StreamUnit.ok procEvent, .bad badUnitRaw, .ok finalizingEvent, .ok completedEvent]
      ∧ ev.errorCode = none ∧ ev.deployment_status = "completed" :=
  c1_parse_recovery_and_sole_success_exit.2
    [.ok procEvent, .bad badUnitRaw, .ok finalizingEvent, .ok completedEvent] rfl

/-- C2: on a stream delivering a processing step event followed by a
well-formed event carrying `error.code = 30`, `getDeploymentStatus` emits
exactly Fetching / Processing, stops reading (whatever units follow the
error event are never consumed and emit nothing), and fails with the
message "Deployment failed with error code: 30". -/
theorem c2_error_code_stops_stream :
    ∀ extra, getDeploymentStatus ([.ok procEvent, .ok errorEvent] ++ extra)
      = ⟨["Fetching...", "Processing..."], [],
         .failed 30 "Deployment failed with error code: 30"⟩ :=
  fun _ => rfl

theorem processUnits_append (l₁ l₂ : List StreamUnit) (cur : Nat)
    (h : (processUnits l₁ cur).outcome = .closed) :
    processUnits (l₁ ++ l₂) cur =
      ⟨(processUnits l₁ cur).msgs ++ (processUnits l₂ (finalRank l₁ cur)).msgs,
       (processUnits l₁ cur).warnings ++ (processUnits l₂ (finalRank l₁ cur)).warnings,
       (processUnits l₂ (finalRank l₁ cur)).outcome⟩ := by
  induction l₁ generalizing cur with
  | nil => simp [processUnits, finalRank]
  | cons u rest ih =>
    cases u with
    | bad raw =>
      rw [processUnits_bad_cons] at h
      have h' : (processUnits rest cur).outcome = .closed := h
      rw [List.cons_append, processUnits_bad_cons, processUnits_bad_cons, ih cur h']
      simp [finalRank]
    | ok ev =>
      rw [List.cons_append]
      simp only [processUnits, finalRank] at h ⊢
      cases hec : ev.errorCode with
      | some code => simp [hec] at h
      | none =>
        simp only [hec] at h ⊢
        by_cases hc : ev.deployment_status = "completed"
        · simp only [if_pos hc] at h
          simp at h
        · simp only [if_neg hc] at h ⊢
          cases hsi : stepInfo ev.step with
          | none =>
            simp only [hsi] at h ⊢
            exact ih cur h
          | some p =>
            obtain ⟨rank, msg⟩ := p
            simp only [hsi] at h ⊢
            by_cases hr : cur < rank
            · simp only [if_pos hr] at h ⊢
              have h' : (processUnits rest rank).outcome = .closed := by simpa using h
              rw [ih rank h']
              simp
            · simp only [if_neg hr] at h ⊢
              exact ih cur h

/-- C3: a buffered unit that fails to decode is recovered locally: with
the stream not yet terminated when the unit arrives, the run on the stream
with the failing unit inserted has exactly the same progress messages and
the same terminal outcome as the run without it (the unit is discarded
whole and the bytes of later chunks are processed exactly as if it had
never arrived, so a payload split across two deliveries is never
reassembled, and the failure never terminates the stream nor fails the
call), logs exactly one additional warning, and that warning names the
parse failure and its cause. -/
theorem c3_decode_failure_never_fatal (pre post : List StreamUnit) (raw : String)
    (h : (processUnits pre 0).outcome = .closed) :
    (getDeploymentStatus (pre ++ .bad raw :: post)).msgs
      = (getDeploymentStatus (pre ++ post)).msgs
    ∧ (getDeploymentStatus (pre ++ .bad raw :: post)).outcome
      = (getDeploymentStatus (pre ++ post)).outcome
    ∧ (getDeploymentStatus (pre ++ .bad raw :: post)).warnings.length
      = (getDeploymentStatus (pre ++ post)).warnings.length + 1
    ∧ parseWarning raw ∈ (getDeploymentStatus (pre ++ .bad raw :: post)).warnings := by
  have h1 := processUnits_append pre (StreamUnit.bad raw :: post) 0 h
  have h2 := processUnits_append pre post 0 h
  rw [processUnits_bad_cons] at h1
  refine ⟨?_, ?_, ?_, ?_⟩ <;>
    simp only [getDeploymentStatus, h1, h2] <;>
    simp [List.length_append]
  omega

/-- Witness for C3: the decode-failure recovery instantiated after one
concrete processing event with a concrete undecodable unit. -/
theorem c3_decode_failure_never_fatal_witness :
    (getDeploymentStatus [.ok procEvent, .bad badUnitRaw]).msgs
      = (getDeploymentStatus [.ok procEvent]).msgs
    ∧ (getDeploymentStatus [.ok procEvent, .bad badUnitRaw]).outcome
      = (getDeploymentStatus [.ok procEvent]).outcome
    ∧ (getDeploymentStatus [.ok procEvent, .bad badUnitRaw]).warnings.length
      = (getDeploymentStatus [.ok procEvent]).warnings.length + 1
    ∧ parseWarning badUnitRaw ∈ (getDeploymentStatus [.ok procEvent, .bad badUnitRaw]).warnings :=
  c3_decode_failure_never_fatal [.ok procEvent] [] badUnitRaw rfl

theorem processing_not_emitted_from (units : List StreamUnit) :
    ∀ cur, 1 ≤ cur → "Processing..." ∉ (processUnits units cur).msgs := by
  induction units with
  | nil => intro cur _; simp [processUnits]
  | cons u rest ih =>
    intro cur hcur
    cases u with
    | bad raw =>
      rw [processUnits_bad_cons]
      exact ih cur hcur
    | ok ev =>
      simp only [processUnits]
      cases hec : ev.errorCode with
      | some code => simp
      | none =>
        simp only [hec]
        by_cases hc : ev.deployment_status = "completed"
        · simp only [if_pos hc]
          simp
        · simp only [if_neg hc]
          cases hsi : stepInfo ev.step with
          | none =>
            simp only [hsi]
            exact ih cur hcur
          | some p =>
            rcases stepInfo_eq_cases _ _ hsi with hp | hp <;> subst hp <;> simp only [hsi]
            · have hr : ¬ (cur < 1) := by omega
              simp only [if_neg hr]
              exact ih cur hcur
            · by_cases hr : cur < 2
              · simp only [if_pos hr]
                intro hmem
                rcases List.mem_cons.mp hmem with heq | hmem'
                · exact absurd heq (by decide)
                · exact ih 2 (by omega) hmem'
              · simp only [if_neg hr]
                exact ih cur hcur

theorem processUnits_processing_count (units : List StreamUnit) :
    ∀ cur, ((processUnits units cur).msgs.count "Processing...") ≤ 1 := by
  induction units with
  | nil => intro cur; simp [processUnits]
  | cons u rest ih =>
    intro cur
    cases u with
    | bad raw =>
      rw [processUnits_bad_cons]
      exact ih cur
    | ok ev =>
      simp only [processUnits]
      cases hec : ev.errorCode with
      | some code => simp
      | none =>
        simp only [hec]
        by_cases hc : ev.deployment_status = "completed"
        · simp only [if_pos hc]
          simp
        · simp only [if_neg hc]
          cases hsi : stepInfo ev.step with
          | none =>
            simp only [hsi]
            exact ih cur
          | some p =>
            rcases stepInfo_eq_cases _ _ hsi with hp | hp <;> subst hp <;> simp only [hsi]
            · by_cases hr : cur < 1
              · simp only [if_pos hr]
                have hnot := processing_not_emitted_from rest 1 (le_refl 1)
                simp [List.count_cons, List.count_eq_zero.mpr hnot]
              · simp only [if_neg hr]
                exact ih cur
            · by_cases hr : cur < 2
              · simp only [if_pos hr]
                have := ih 2
                simp only [List.count_cons]
                simpa using this
              · simp only [if_neg hr]
                exact ih cur

/-- C7: for every event stream, the progress state machine emits
"Processing..." at most once — the emission happens only on the first
forward transition into the processing state, so repeated events with the
same step name are not re-emitted and duplicate or skipped intermediate
progress values cannot produce a second emission (the streamer is a total
function on arbitrary unit streams, so no stream breaks it). -/
theorem c7_processing_emitted_at_most_once (units : List StreamUnit) :
    ((getDeploymentStatus units).msgs.count "Processing...") ≤ 1 := by
  have h := processUnits_processing_count units 0
  simp only [getDeploymentStatus, List.count_cons]
  simpa using h

theorem parseSecret_cases (t : String) :
    (∃ e, parseSecret t = .ok e) ∨ parseSecret t = .error (invalidSecretMessage t) := by
  rcases h : splitFirstEq t.data with _ | ⟨k, v⟩
  · exact Or.inr (by simp [parseSecret, h])
  · rcases k with _ | ⟨c, k⟩
    · exact Or.inr (by simp [parseSecret, h])
    · exact Or.inl ⟨⟨"secret", String.mk (c :: k), String.mk v⟩, by simp [parseSecret, h]⟩

theorem validSecretToken_false_error (t : String) (h : validSecretToken t = false) :
    parseSecret t = .error (invalidSecretMessage t) := by
  rcases parseSecret_cases t with ⟨e, he⟩ | he
  · simp [validSecretToken, he] at h
  · exact he

theorem validSecretToken_true_ok (t : String) (h : validSecretToken t = true) :
    ∃ e, parseSecret t = .ok e := by
  rcases parseSecret_cases t with he | he
  · exact he
  · simp [validSecretToken, he] at h

theorem parseEnvironmentVariables_fails (tokens : List String)
    (h : ∃ t ∈ tokens, validSecretToken t = false) :
    ∃ t ∈ tokens, validSecretToken t = false ∧
      parseEnvironmentVariables tokens = .error (invalidSecretMessage t) := by
  induction tokens with
  | nil => simp at h
  | cons t rest ih =>
    by_cases hv : validSecretToken t = false
    · refine ⟨t, List.mem_cons_self _ _, hv, ?_⟩
      simp [parseEnvironmentVariables, validSecretToken_false_error t hv]
    · have hr : ∃ u ∈ rest, validSecretToken u = false := by
        obtain ⟨u, hm, hb⟩ := h
        rcases List.mem_cons.mp hm with rfl | hm'
        · exact absurd hb hv
        · exact ⟨u, hm', hb⟩
      obtain ⟨u, hm', hb', heq⟩ := ih hr
      refine ⟨u, List.mem_cons_of_mem _ hm', hb', ?_⟩
      obtain ⟨e, he⟩ := validSecretToken_true_ok t (by simpa using hv)
      simp [parseEnvironmentVariables, he, heq]

/-- C4: `parseEnvironmentVariables` maps `["A=1","B=2"]` to the two secret
entries in order; and every input sequence containing a token without a
non-empty key before the first `=` fails as a whole with the validation
message naming an offending token (no partial result: the `Except` value
carries no entries), where the message literally begins with
"Invalid secret format: " followed by the token. -/
theorem c4_parse_secrets :
    parseEnvironmentVariables ["A=1", "B=2"]
      = .ok [⟨"secret", "A", "1"⟩, ⟨"secret", "B", "2"⟩]
    ∧ (∀ t, invalidSecretMessage t
        = "Invalid secret format: " ++ t ++ ". Expected format: KEY=VALUE")
    ∧ ∀ tokens, (∃ t ∈ tokens, validSecretToken t = false) →
        ∃ t ∈ tokens, validSecretToken t = false ∧
          parseEnvironmentVariables tokens = .error (invalidSecretMessage t) := by
  exact ⟨rfl, fun _ => rfl, parseEnvironmentVariables_fails⟩

/-- Witness for C4: the batch-rejection part instantiated on the
repository test's malformed token `foo_bar`. -/
theorem c4_parse_secrets_witness :
    ∃ t ∈ ["foo_bar"], validSecretToken t = false ∧
      parseEnvironmentVariables ["foo_bar"] = .error (invalidSecretMessage t) :=
  c4_parse_secrets.2.2 ["foo_bar"] ⟨"foo_bar", by simp, by decide⟩

theorem string_append_left_cancel (p a b : String) (h : p ++ a = p ++ b) : a = b := by
  have hd : p.data ++ a.data = p.data ++ b.data := by
    simpa [String.data_append] using congrArg String.data h
  cases a
  cases b
  exact congrArg String.mk (List.append_cancel_left hd)

theorem outputPrefix_injective : Function.Injective (fun s : String => "output/" ++ s) :=
  fun a b h => string_append_left_cancel "output/" a b h

theorem string_append_assoc (a b c : String) : a ++ b ++ c = a ++ (b ++ c) := by
  cases a
  cases b
  cases c
  apply congrArg String.mk
  simp [String.data_append, List.append_assoc]

theorem bundle_paths_eq (files : List String) (mtime : Nat) :
    (generateBundleZipEntries files mtime).map ZipEntry.path
      = files.map (fun f => "output/" ++ f) := by
  simp [generateBundleZipEntries, List.map_map, Function.comp]

/-- C5: for every build-output file set holding exactly one worker script
and at least one file under the assets folder, the archive produced by the
bundle builder has every entry path prefixed by the fixed root folder
`output/`, contains exactly one `output/worker.js` entry directly under
that root, and contains at least one entry under `output/assets/`. -/
theorem c5_bundle_archive_structure (files : List String) (mtime : Nat)
    (hw : files.count "worker.js" = 1)
    (ha : ∃ f ∈ files, ∃ rest, f = "assets/" ++ rest) :
    (∀ e ∈ (generateBundleZipEntries files mtime).map ZipEntry.path,
        ∃ rest, e = "output/" ++ rest)
    ∧ ((generateBundleZipEntries files mtime).map ZipEntry.path).count "output/worker.js" = 1
    ∧ ∃ e ∈ (generateBundleZipEntries files mtime).map ZipEntry.path,
        ∃ rest, e = "output/assets/" ++ rest := by
  rw [bundle_paths_eq]
  refine ⟨?_, ?_, ?_⟩
  · intro e he
    obtain ⟨f, _, rfl⟩ := List.mem_map.mp he
    exact ⟨f, rfl⟩
  · have hcnt := List.count_map_of_injective files (fun s : String => "output/" ++ s)
      outputPrefix_injective "worker.js"
    have hlit : ("output/" ++ "worker.js") = "output/worker.js" := rfl
    rw [← hlit]
    rw [hcnt]
    exact hw
  · obtain ⟨f, hf, rest, rfl⟩ := ha
    refine ⟨"output/" ++ ("assets/" ++ rest), List.mem_map_of_mem _ hf, rest, ?_⟩
    rw [← string_append_assoc]
    rfl

/-- Witness for C5: the bundle structure instantiated on the repository
test's build output, one worker script and one asset file. -/
theorem c5_bundle_archive_structure_witness :
    (∀ e ∈ (generateBundleZipEntries ["worker.js", "assets/test.txt"] 0).map ZipEntry.path,
        ∃ rest, e = "output/" ++ rest)
    ∧ ((generateBundleZipEntries ["worker.js", "assets/test.txt"] 0).map
        ZipEntry.path).count "output/worker.js" = 1
    ∧ ∃ e ∈ (generateBundleZipEntries ["worker.js", "assets/test.txt"] 0).map ZipEntry.path,
        ∃ rest, e = "output/assets/" ++ rest :=
  c5_bundle_archive_structure ["worker.js", "assets/test.txt"] 0 (by decide)
    ⟨"assets/test.txt", by simp, "test.txt", rfl⟩

/-- C6: invoking the orchestrator with dry-run enabled — whatever the build
contents and whatever every remote endpoint would answer — produces the
archive, calls no remote endpoint at all (so in particular zero calls to
the authorization, upload and registration endpoints), prints exactly the
bundle messages followed by the dry-run announcement and the four
skipped-step notices, and exits with status 0. -/
theorem c6_dry_run_skips_network (env : DeployEnv) :
    runDeploy true env
      = ⟨["Generating bundle...", "Bundle created at: bundle.zip",
          "Dry run enabled — skipping upload and deployment steps.",
          "Next steps (skipped):",
          "- Generate upload signature",
          "- Upload bundle.zip",
          "- Create deployment"],
         [], some (generateBundleZipEntries env.buildFiles env.mtime), 0⟩ := rfl

/-- C8: the bundle builder's archive structure is idempotent — two
invocations on an unchanged file set yield identical entry-path lists even
when the run-varying entry metadata differs — while the archives themselves
need not be identical (witnessed by two runs differing only in metadata). -/
theorem c8_bundle_idempotent_structure (files : List String) (t₁ t₂ : Nat) :
    (generateBundleZipEntries files t₁).map ZipEntry.path
      = (generateBundleZipEntries files t₂).map ZipEntry.path
    ∧ generateBundleZipEntries ["worker.js"] 0 ≠ generateBundleZipEntries ["worker.js"] 1 := by
  refine ⟨?_, by decide⟩
  rw [bundle_paths_eq, bundle_paths_eq]

/-- C9: for every form submission whose search term parses successfully but
has fewer than 3 characters, the search action returns `searchResults`
equal to `null` and issues no query to the Algolia index. -/
theorem c9_short_term_returns_null (ρ : Type) (tTitle : String → String)
    (tSubtitle tError : String) (indexName : Option String)
    (runQuery : String → Except ThrownError (List ρ)) (prev : SearchState ρ)
    (term : String) (h : term.length < 3) :
    (search tTitle tSubtitle tError indexName runQuery prev (.success term)).1.searchResults
      = none
    ∧ (search tTitle tSubtitle tError indexName runQuery prev (.success term)).2 = [] := by
  simp [search, h]

/-- Witness for C9: the short-term guard instantiated on the two-character
term "ab" with a query that would answer if it were issued. -/
theorem c9_short_term_returns_null_witness :
    (search (fun t => t) "sub" "err" (some "idx") (fun _ => Except.ok ([3] : List Nat))
        ⟨.reply, some [7], "", ""⟩ (.success "ab")).1.searchResults = none
    ∧ (search (fun t => t) "sub" "err" (some "idx") (fun _ => Except.ok ([3] : List Nat))
        ⟨.reply, some [7], "", ""⟩ (.success "ab")).2 = [] :=
  c9_short_term_returns_null Nat (fun t => t) "sub" "err" (some "idx")
    (fun _ => Except.ok [3]) ⟨.reply, some [7], "", ""⟩ "ab" (by decide)

/-- C10: for every error thrown while querying Algolia or transforming its
results (the query being actually reached: parsed term of length ≥ 3 and a
non-empty index name), the search action returns `searchResults` equal to
the prior state's `searchResults` and reports the failure through the
`formErrors` of `lastResult` — the catch clause's classification of the
thrown error — rather than propagating the exception (the action is a total
function returning a state for every thrown error). -/
theorem c10_query_error_keeps_prior_results (ρ : Type) (tTitle : String → String)
    (tSubtitle tError name : String) (runQuery : String → Except ThrownError (List ρ))
    (prev : SearchState ρ) (term : String) (e : ThrownError)
    (hlen : 3 ≤ term.length) (hname : name ≠ "") (hq : runQuery term = .error e) :
    (search tTitle tSubtitle tError (some name) runQuery prev (.success term)).1.searchResults
      = prev.searchResults
    ∧ (search tTitle tSubtitle tError (some name) runQuery prev (.success term)).1.lastResult
      = .replyWithErrors (formErrorsFor tError e) := by
  have h3 : ¬ (term.length < 3) := not_lt.mpr hlen
  simp [search, h3, hname, hq]

/-- Witness for C10: a plain thrown `Error` with message "boom" on the
three-character term "abc" leaves the previously displayed results in
place and surfaces ["boom"] as form errors. -/
theorem c10_query_error_keeps_prior_results_witness :
    (search (fun t => t) "sub" "err" (some "idx")
        (fun _ => Except.error (ThrownError.err "boom"))
        ⟨.reply, some ([7] : List Nat), "", ""⟩ (.success "abc")).1.searchResults = some [7]
    ∧ (search (fun t => t) "sub" "err" (some "idx")
        (fun _ => Except.error (ThrownError.err "boom"))
        ⟨.reply, some ([7] : List Nat), "", ""⟩ (.success "abc")).1.lastResult
      = .replyWithErrors ["boom"] :=
  c10_query_error_keeps_prior_results Nat (fun t => t) "sub" "err" "idx"
    (fun _ => Except.error (ThrownError.err "boom")) ⟨.reply, some [7], "", ""⟩ "abc"
    (ThrownError.err "boom") (by decide) (by decide) rfl

end Catalyst
